import Mathlib

/-!
Verification of the Ask-DeepSeek CLI core (request building, buffered response
parsing, and the streaming decoder) against its C sources.

The embedding models the C data flow over `List Char` (C byte strings without
interior NUL bytes, which the streamed text never contains on the paths at
issue).  The cJSON library calls made by the sources are modelled by an
executable JSON value type, parser and unformatted printer:

* `cjson_parse` models `cJSON_Parse`: leading whitespace is any byte `≤ 32`
  (cJSON's `buffer_skip_whitespace`), trailing bytes after the first value are
  ignored (cJSON does not require a NUL right after the value), unknown
  escapes are rejected, and nesting is bounded by `CJSON_NESTING_LIMIT`.
  JSON numbers are modelled as integers: every number appearing in this
  program's traffic (the token counters) is an integer, and `valueint` is the
  only number field the sources read.  The recursion fuel `length + 1` is
  spent at least one consumed character per step, so it never runs out on
  real input.  `\u` escapes decode a single code point (surrogate pairing is
  irrelevant here: the only escapes this development reasons about are the
  `\u00XX` forms below code point 32 that cJSON's printer emits).
* `cjson_print_unformatted` models `cJSON_PrintUnformatted` with cJSON's
  `print_string_ptr` escaping rules.
* `get_object_item` models `cJSON_GetObjectItem` with exact-case key lookup
  (all keys used by the program are lower case literals).
-/

inductive Json where
  | null : Json
  | bool : Bool → Json
  | num : Int → Json
  | str : List Char → Json
  | arr : List Json → Json
  | obj : List (List Char × Json) → Json

/-- cJSON's whitespace skipping: bytes `≤ 32` are skipped. -/
def skip_ws : List Char → List Char
  | [] => []
  | c :: cs => if c.toNat ≤ 32 then skip_ws cs else c :: cs

/-- Value of one hex digit, as read by cJSON's `parse_hex4`. -/
def hex_val (c : Char) : Option Nat :=
  if '0' ≤ c ∧ c ≤ '9' then some (c.toNat - ('0'.toNat))
  else if 'A' ≤ c ∧ c ≤ 'F' then some (c.toNat - ('A'.toNat) + 10)
  else if 'a' ≤ c ∧ c ≤ 'f' then some (c.toNat - ('a'.toNat) + 10)
  else none

/-- The single-character escapes accepted by cJSON's `parse_string`. -/
def decode_escape (c : Char) : Option Char :=
  if c = '"' then some '"'
  else if c = '\\' then some '\\'
  else if c = '/' then some '/'
  else if c = 'b' then some (Char.ofNat 8)
  else if c = 'f' then some (Char.ofNat 12)
  else if c = 'n' then some '\n'
  else if c = 'r' then some '\r'
  else if c = 't' then some '\t'
  else none

/-- Body of a JSON string after the opening quote, as read by cJSON's
`parse_string`: ends at the first unescaped quote, rejects unterminated
input and unknown escapes. -/
def parse_string_body : List Char → Option (List Char × List Char)
  | [] => none
  | '"' :: rest => some ([], rest)
  | '\\' :: 'u' :: h1 :: h2 :: h3 :: h4 :: rest =>
    match hex_val h1, hex_val h2, hex_val h3, hex_val h4 with
    | some a, some b, some c, some d =>
      match parse_string_body rest with
      | some (s, r) => some (Char.ofNat (((a * 16 + b) * 16 + c) * 16 + d) :: s, r)
      | none => none
    | _, _, _, _ => none
  | '\\' :: e :: rest =>
    match decode_escape e with
    | some ec =>
      match parse_string_body rest with
      | some (s, r) => some (ec :: s, r)
      | none => none
    | none => none
  | c :: rest =>
    match parse_string_body rest with
    | some (s, r) => some (c :: s, r)
    | none => none

/-- Longest digit run at the head of the input. -/
def take_digits : List Char → List Char × List Char
  | [] => ([], [])
  | c :: cs =>
    if c.isDigit then
      let (ds, r) := take_digits cs
      (c :: ds, r)
    else ([], c :: cs)

def digits_to_nat (ds : List Char) : Nat :=
  ds.foldl (fun acc c => acc * 10 + (c.toNat - ('0'.toNat))) 0

/-- cJSON's `parse_number`, restricted to the integer grammar used by this
program's traffic (optional minus sign, then decimal digits). -/
def parse_number (s : List Char) : Option (Json × List Char) :=
  match s with
  | '-' :: r =>
    match take_digits r with
    | ([], _) => none
    | (ds, r2) => some (.num (-(digits_to_nat ds : Int)), r2)
  | _ =>
    match take_digits s with
    | ([], _) => none
    | (ds, r2) => some (.num ((digits_to_nat ds : Int)), r2)

mutual

/-- cJSON's `parse_value`.  `fuel` is spent on every recursive step;
`budget` models `CJSON_NESTING_LIMIT` and is spent only when entering an
array or an object. -/
def parse_value : Nat → Nat → List Char → Option (Json × List Char)
  | 0, _, _ => none
  | fuel + 1, budget, s =>
    match s with
    | '"' :: r =>
      match parse_string_body r with
      | some (s2, r2) => some (.str s2, r2)
      | none => none
    | 'f' :: 'a' :: 'l' :: 's' :: 'e' :: r => some (.bool false, r)
    | 't' :: 'r' :: 'u' :: 'e' :: r => some (.bool true, r)
    | 'n' :: 'u' :: 'l' :: 'l' :: r => some (.null, r)
    | '[' :: r =>
      match budget with
      | 0 => none
      | budget + 1 =>
        match skip_ws r with
        | [] => none
        | c :: r2 =>
          if c = ']' then some (.arr [], r2)
          else
            match parse_array_items fuel budget (c :: r2) with
            | some (items, r3) => some (.arr items, r3)
            | none => none
    | '\x7b' :: r =>
      match budget with
      | 0 => none
      | budget + 1 =>
        match skip_ws r with
        | [] => none
        | c :: r2 =>
          if c = '\x7d' then some (.obj [], r2)
          else
            match parse_object_members fuel budget (c :: r2) with
            | some (members, r3) => some (.obj members, r3)
            | none => none
    | c :: r => if c = '-' ∨ c.isDigit then parse_number (c :: r) else none
    | [] => none

/-- cJSON's `parse_array` loop: one or more comma-separated values followed
by `]` (the empty array is handled before entering the loop). -/
def parse_array_items : Nat → Nat → List Char → Option (List Json × List Char)
  | 0, _, _ => none
  | fuel + 1, budget, s =>
    match parse_value fuel budget s with
    | some (j, r) =>
      match skip_ws r with
      | ',' :: r2 =>
        match parse_array_items fuel budget (skip_ws r2) with
        | some (items, r3) => some (j :: items, r3)
        | none => none
      | ']' :: r2 => some ([j], r2)
      | _ => none
    | none => none

/-- cJSON's `parse_object` loop: one or more `"key" : value` members
separated by commas and closed by a brace. -/
def parse_object_members : Nat → Nat → List Char → Option (List (List Char × Json) × List Char)
  | 0, _, _ => none
  | fuel + 1, budget, s =>
    match s with
    | '"' :: r =>
      match parse_string_body r with
      | some (key, r1) =>
        match skip_ws r1 with
        | ':' :: r2 =>
          match parse_value fuel budget (skip_ws r2) with
          | some (v, r3) =>
            match skip_ws r3 with
            | ',' :: r4 =>
              match parse_object_members fuel budget (skip_ws r4) with
              | some (members, r5) => some ((key, v) :: members, r5)
              | none => none
            | '\x7d' :: r4 => some ([(key, v)], r4)
            | _ => none
          | none => none
        | _ => none
      | none => none
    | _ => none

end

def CJSON_NESTING_LIMIT : Nat := 1000

/-- `cJSON_Parse`: skip leading whitespace, read one value, ignore trailing
bytes. -/
def cjson_parse (s : List Char) : Option Json :=
  match parse_value (s.length + 1) CJSON_NESTING_LIMIT (skip_ws s) with
  | some (j, _) => some j
  | none => none

def hex_digit_char (n : Nat) : Char :=
  if n < 10 then Char.ofNat (('0'.toNat) + n) else Char.ofNat (('a'.toNat) + (n - 10))

/-- One character as escaped by cJSON's `print_string_ptr`: named escapes for
quote, backslash and the common control characters, `\u00XX` for the other
bytes below 32, everything else verbatim. -/
def escape_char (c : Char) : List Char :=
  if c = '"' then ['\\', '"']
  else if c = '\\' then ['\\', '\\']
  else if c = Char.ofNat 8 then ['\\', 'b']
  else if c = Char.ofNat 12 then ['\\', 'f']
  else if c = '\n' then ['\\', 'n']
  else if c = '\r' then ['\\', 'r']
  else if c = '\t' then ['\\', 't']
  else if c.toNat < 32 then
    ['\\', 'u', '0', '0', hex_digit_char (c.toNat / 16), hex_digit_char (c.toNat % 16)]
  else [c]

def escape_string : List Char → List Char
  | [] => []
  | c :: cs => escape_char c ++ escape_string cs

/-- Decimal digits of `n`, most significant first (`fuel`-guarded division
recursion; the wrapper supplies ample fuel). -/
def nat_digits_aux : Nat → Nat → List Char
  | 0, _ => []
  | fuel + 1, n =>
    if n < 10 then [Char.ofNat (('0'.toNat) + n)]
    else nat_digits_aux fuel (n / 10) ++ [Char.ofNat (('0'.toNat) + n % 10)]

def nat_digits (n : Nat) : List Char := nat_digits_aux (n + 1) n

def int_chars (i : Int) : List Char :=
  if i < 0 then '-' :: nat_digits i.natAbs else nat_digits i.natAbs

mutual

/-- cJSON's `cJSON_PrintUnformatted`: no whitespace, members and items in
insertion order. -/
def cjson_print_unformatted : Json → List Char
  | .str s => '"' :: (escape_string s ++ ['"'])
  | .obj members => '\x7b' :: print_members members
  | .arr items => '[' :: print_items items
  | .num n => int_chars n
  | .bool false => ("false".toList)
  | .bool true => ("true".toList)
  | .null => ("null".toList)

def print_items : List Json → List Char
  | [] => [']']
  | j :: rest => cjson_print_unformatted j ++ print_items_rest rest

def print_items_rest : List Json → List Char
  | [] => [']']
  | j :: rest => ',' :: (cjson_print_unformatted j ++ print_items_rest rest)

def print_members : List (List Char × Json) → List Char
  | [] => ['\x7d']
  | (k, v) :: rest =>
    '"' :: (escape_string k ++ '"' :: ':' :: (cjson_print_unformatted v ++ print_members_rest rest))

def print_members_rest : List (List Char × Json) → List Char
  | [] => ['\x7d']
  | (k, v) :: rest =>
    ',' :: '"' :: (escape_string k ++ '"' :: ':' :: (cjson_print_unformatted v ++ print_members_rest rest))

end

/-- `cJSON_GetObjectItem` member lookup (first match wins, as in cJSON's
child-list walk).  Exact-case comparison; every key this program looks up is
a lower-case literal. -/
def assoc_find : List (List Char × Json) → List Char → Option Json
  | [], _ => none
  | (k, v) :: rest, key => if k = key then some v else assoc_find rest key

def get_object_item : Json → List Char → Option Json
  | .obj members, key => assoc_find members key
  | _, _ => none

/-- C `INT_MAX`, the saturation bound cJSON's `parse_number` applies to
`valueint`. -/
def INT_MAX : Int := 2147483647

/-- C `INT_MIN`, the lower saturation bound for `valueint`. -/
def INT_MIN : Int := -2147483648

/-- cJSON's `valueint` as read by the sources through a possibly-NULL item
pointer: `item ? item->valueint : 0`, and `valueint` is populated only for
numbers.  cJSON's `parse_number` stores the clamped value
(`number >= INT_MAX` gives `INT_MAX`, `number <= INT_MIN` gives `INT_MIN`,
otherwise the integer itself). -/
def cjson_valueint : Option Json → Int
  | some (.num n) => if INT_MAX ≤ n then INT_MAX else if n ≤ INT_MIN then INT_MIN else n
  | _ => 0

/-!
The program's data model (`api_config_t`, `chat_request_params_t`,
`chat_response_t` from the headers), the request builder
(`construct_request_json` in `http_client.c`, the three-argument variant
with the `stream` flag), the transport options each path installs on its
CURL handle, the buffered response parsing (`parse_chat_response` in
`api_handler.c`) and the post-configuration slice of `main`.
-/

structure api_config_t where
  api_key : List Char
  base_url : List Char
  model_name : List Char
  system_prompt : List Char

structure chat_request_params_t where
  user_query : List Char
  custom_prompt : Option (List Char)

/-- The JSON value `construct_request_json` assembles before printing:
`model`, then the two-element `messages` array (system message first, its
content the custom prompt when present and the configured system prompt
otherwise; then the user message), then the `stream` boolean. -/
def request_payload (config : api_config_t) (params : chat_request_params_t)
    (stream : Bool) : Json :=
  .obj [(("model".toList), .str config.model_name),
        (("messages".toList), .arr
          [.obj [(("role".toList), .str ("system".toList)),
                 (("content".toList), .str (params.custom_prompt.getD config.system_prompt))],
           .obj [(("role".toList), .str ("user".toList)),
                 (("content".toList), .str params.user_query)]]),
        (("stream".toList), .bool stream)]

/-- `construct_request_json(config, params, stream)`: build the payload
object and print it unformatted. -/
def construct_request_json (config : api_config_t) (params : chat_request_params_t)
    (stream : Bool) : List Char :=
  cjson_print_unformatted (request_payload config params stream)

inductive transport_path where
  | streaming : transport_path
  | buffered : transport_path
deriving DecidableEq

/-- Outcome of `main` after configuration loading: either the process
returned without dispatching any network request, or it handed a request
payload to one of the two transport paths. -/
inductive main_outcome where
  | exited (stdout : List Char) (exit_code : Nat) : main_outcome
  | dispatched (path : transport_path) (request_json : List Char)
      (stdout_so_far : List Char) : main_outcome
deriving DecidableEq

structure cli_flags where
  show_tokens : Bool
  echo_input : Bool
  dry_run : Bool
  store_forward : Bool

/-- The slice of `main` after a successful configuration load: optional
input echo, `stream_enabled = !store_forward`, request construction, then
either the dry-run early return (print the payload and a newline, exit 0,
no request dispatched) or dispatch to the path selected by
`stream_enabled`. -/
def main_after_config (config : api_config_t) (user_question : List Char)
    (flags : cli_flags) : main_outcome :=
  let echo_out := if flags.echo_input
    then ("\nInput: ".toList) ++ user_question ++ ['\n'] else []
  let request_params : chat_request_params_t := ⟨user_question, none⟩
  let stream_enabled := !flags.store_forward
  let request_json := construct_request_json config request_params stream_enabled
  if flags.dry_run then .exited (echo_out ++ request_json ++ ['\n']) 0
  else .dispatched (if stream_enabled then .streaming else .buffered) request_json echo_out

/-- The options a caller installs on its CURL easy handle, as far as the
claims are concerned: URL, header list, POST body, `CURLOPT_TIMEOUT` (absent
when never set) and `CURLOPT_USERAGENT` (absent when never set). -/
structure curl_request_t where
  url : List Char
  headers : List (List Char)
  post_body : List Char
  timeout_seconds : Option Nat
  user_agent : Option (List Char)
deriving DecidableEq

def authorization_header (api_key : List Char) : List Char :=
  ("Authorization: Bearer ".toList) ++ api_key

/-- The handle configured by `perform_http_post` (the buffered transport):
Content-Type and Authorization headers, a 30 second `CURLOPT_TIMEOUT`, and
the `deepseek-cli/1.0` user agent. -/
def perform_http_post_request (url auth payload : List Char) : curl_request_t :=
  ⟨url, [("Content-Type: application/json".toList), auth], payload,
   some 30, some ("deepseek-cli/1.0".toList)⟩

/-- The handle the buffered caller `execute_chat_request` ends up with: it
delegates to `perform_http_post` with the configured URL and bearer
header. -/
def execute_chat_request_curl (config : api_config_t) (request_json : List Char) :
    curl_request_t :=
  perform_http_post_request config.base_url (authorization_header config.api_key) request_json

/-- The handle configured inline by `execute_streaming_request`: the same
two headers, URL and body, but no `CURLOPT_TIMEOUT` and no
`CURLOPT_USERAGENT` are ever set on it. -/
def execute_streaming_request_curl (config : api_config_t) (request_json : List Char) :
    curl_request_t :=
  ⟨config.base_url, [("Content-Type: application/json".toList), authorization_header config.api_key],
   request_json, none, none⟩

structure chat_response_t where
  content : List Char
  input_token_count : Int
  output_token_count : Int
  total_token_count : Int
deriving DecidableEq

inductive chat_parse_error where
  | empty_response : chat_parse_error
  | malformed_json : chat_parse_error
  | api_error (message : List Char) : chat_parse_error
  | invalid_choices : chat_parse_error
  | invalid_content : chat_parse_error
deriving DecidableEq

/-- `parse_chat_response` from `api_handler.c`, checks in source order:
NULL payload; `cJSON_Parse` failure; an `error` member (reported with its
`message` string, or `Unknown error` when that is absent or not a string);
then `choices` must be a non-empty array whose first element carries a
string `message.content`; the optional `usage` member fills the three token
counters, each absent field read as 0. -/
def parse_chat_response (payload : Option (List Char)) :
    Except chat_parse_error chat_response_t :=
  match payload with
  | none => .error .empty_response
  | some body =>
    match cjson_parse body with
    | none => .error .malformed_json
    | some root =>
      match get_object_item root ("error".toList) with
      | some error_object =>
        .error (.api_error
          (match get_object_item error_object ("message".toList) with
           | some (.str s) => s
           | _ => ("Unknown error".toList)))
      | none =>
        match get_object_item root ("choices".toList) with
        | some (.arr (first_choice :: _)) =>
          match (get_object_item first_choice ("message".toList)).bind
              (fun m => get_object_item m ("content".toList)) with
          | some (.str content) =>
            match get_object_item root ("usage".toList) with
            | some usage =>
              .ok ⟨content,
                   cjson_valueint (get_object_item usage ("prompt_tokens".toList)),
                   cjson_valueint (get_object_item usage ("completion_tokens".toList)),
                   cjson_valueint (get_object_item usage ("total_tokens".toList))⟩
            | none => .ok ⟨content, 0, 0, 0⟩
          | _ => .error .invalid_content
        | _ => .error .invalid_choices

/-!
The streaming decoder: `stream_context_t` holds a 4096-byte buffer;
`stream_data_callback` rejects a chunk (returning 0, which makes libcurl
abort the transfer) when the stored bytes plus the chunk would not leave
room below `sizeof(buffer)`, otherwise appends and runs
`process_stream_data`, which consumes every complete line and keeps the
tail after the last newline.  Each complete line is printed through the
`data: ` strip / `cJSON_Parse` / `choices[0].delta.content` chain.
-/

def STREAM_BUFFER_SIZE : Nat := 4096

/-- Split the buffer at its newlines: the complete lines in order (newline
delimiters removed), and the retained tail after the last newline. -/
def split_lines : List Char → List (List Char) × List Char
  | [] => ([], [])
  | c :: cs =>
    if c = '\n' then
      ([] :: (split_lines cs).1, (split_lines cs).2)
    else
      match split_lines cs with
      | (l :: ls, r) => ((c :: l) :: ls, r)
      | ([], r) => ([], c :: r)

/-- What one complete line prints: strip a leading `data: ` if present,
`cJSON_Parse` the rest, and when the event has a non-empty `choices` array
whose first element has a `delta` member with a string `content`, that
string; otherwise nothing. -/
def emit_of_line (line : List Char) : List Char :=
  let stripped := if line.take 6 = ("data: ".toList) then line.drop 6 else line
  match cjson_parse stripped with
  | some root =>
    match get_object_item root ("choices".toList) with
    | some (.arr (first_choice :: _)) =>
      match get_object_item first_choice ("delta".toList) with
      | some delta =>
        match get_object_item delta ("content".toList) with
        | some (.str s) => s
        | _ => []
      | none => []
    | _ => []
  | none => []

/-- Concatenated output of a run of complete lines, in order. -/
def lines_output : List (List Char) → List Char
  | [] => []
  | l :: ls => emit_of_line l ++ lines_output ls

/-- `process_stream_data`: consume every complete line of the buffer
(printing what each line yields) and keep the tail after the last newline.
Result: (retained buffer, bytes printed). -/
def process_stream_data (buffer : List Char) : List Char × List Char :=
  ((split_lines buffer).2, lines_output (split_lines buffer).1)

/-- `stream_data_callback`: reject the chunk (abort the transfer) when
`buffer_len + data_size >= sizeof(buffer)`, which leaves the context
untouched; otherwise append the chunk and process.  `none` models the
callback returning 0, which makes libcurl abort the request. -/
def stream_data_callback (buffer : List Char) (chunk : List Char) :
    Option (List Char × List Char) :=
  if STREAM_BUFFER_SIZE ≤ buffer.length + chunk.length then none
  else some (process_stream_data (buffer ++ chunk))

/-- Feed a sequence of arrival chunks through the callback, accumulating
everything printed; `none` as soon as one callback aborts. -/
def feed_chunks : List Char → List (List Char) → Option (List Char × List Char)
  | buffer, [] => some (buffer, [])
  | buffer, chunk :: rest =>
    match stream_data_callback buffer chunk with
    | none => none
    | some (buffer2, out) =>
      match feed_chunks buffer2 rest with
      | none => none
      | some (buffer3, out2) => some (buffer3, out ++ out2)

def join_lines : List (List Char) → List Char
  | [] => []
  | l :: ls => l ++ '\n' :: join_lines ls

/-- The prefix of a byte stream up to and including its last newline (empty
when it has no newline). -/
def up_to_last_newline (s : List Char) : List Char :=
  join_lines (split_lines s).1

mutual

/-- Values containing no JSON number (the request payload never does; the
round-trip theorem below is stated for these). -/
def num_free : Json → Bool
  | .num _ => false
  | .arr items => num_free_list items
  | .obj members => num_free_members members
  | _ => true

def num_free_list : List Json → Bool
  | [] => true
  | j :: rest => num_free j && num_free_list rest

def num_free_members : List (List Char × Json) → Bool
  | [] => true
  | (_, v) :: rest => num_free v && num_free_members rest

end

mutual

/-- Nesting depth as counted by cJSON's `CJSON_NESTING_LIMIT` check: one
unit per array or object entered. -/
def json_depth : Json → Nat
  | .arr items => json_depth_list items + 1
  | .obj members => json_depth_members members + 1
  | _ => 0

def json_depth_list : List Json → Nat
  | [] => 0
  | j :: rest => Nat.max (json_depth j) (json_depth_list rest)

def json_depth_members : List (List Char × Json) → Nat
  | [] => 0
  | (_, v) :: rest => Nat.max (json_depth v) (json_depth_members rest)

end

/-!
Lemma layer, part one: the printer's string escaping is inverted by the
parser's string reader.
-/

theorem hex_val_hex_digit_char : ∀ n < 16, hex_val (hex_digit_char n) = some n := by decide

theorem parse_string_body_escape (c : Char) (tail rest : List Char)
    (ih : parse_string_body (escape_string tail ++ '"' :: rest) = some (tail, rest)) :
    parse_string_body (escape_char c ++ (escape_string tail ++ '"' :: rest))
      = some (c :: tail, rest) := by
  by_cases h1 : c = '"'
  · subst h1; simp [escape_char, parse_string_body, decode_escape, ih]
  by_cases h2 : c = '\\'
  · subst h2; simp [escape_char, parse_string_body, decode_escape, ih]
  by_cases h3 : c = Char.ofNat 8
  · subst h3; simp [escape_char, parse_string_body, decode_escape, ih]
  by_cases h4 : c = Char.ofNat 12
  · subst h4; simp [escape_char, parse_string_body, decode_escape, ih]
  by_cases h5 : c = '\n'
  · subst h5; simp [escape_char, parse_string_body, decode_escape, ih]
  by_cases h6 : c = '\r'
  · subst h6; simp [escape_char, parse_string_body, decode_escape, ih]
  by_cases h7 : c = '\t'
  · subst h7; simp [escape_char, parse_string_body, decode_escape, ih]
  by_cases h8 : c.toNat < 32
  · have hd1 : c.toNat / 16 < 16 := by omega
    have hd2 : c.toNat % 16 < 16 := by omega
    have e1 := hex_val_hex_digit_char _ hd1
    have e2 := hex_val_hex_digit_char _ hd2
    have harith : c.toNat / 16 * 16 + c.toNat % 16 = c.toNat := by omega
    have hv0 : hex_val '0' = some 0 := by decide
    simp [escape_char, h1, h2, h3, h4, h5, h6, h7, if_pos h8, parse_string_body,
      e1, e2, hv0, ih, harith, Char.ofNat_toNat]
  · simp [escape_char, h1, h2, h3, h4, h5, h6, h7, if_neg h8, parse_string_body, ih]

/-- Reading back an escaped string stops exactly at the closing quote and
recovers the original characters. -/
theorem parse_string_body_round (s : List Char) : ∀ rest : List Char,
    parse_string_body (escape_string s ++ '"' :: rest) = some (s, rest) := by
  induction s with
  | nil => intro rest; simp [escape_string, parse_string_body]
  | cons c cs ih =>
    intro rest
    simp only [escape_string, List.append_assoc]
    exact parse_string_body_escape c cs rest (ih rest)

/-- `skip_ws` leaves any list headed by a byte above 32 unchanged. -/
theorem skip_ws_head (c : Char) (l : List Char) (h : 32 < c.toNat) :
    skip_ws (c :: l) = c :: l := by
  simp only [skip_ws, if_neg (by omega : ¬c.toNat ≤ 32)]

/-- One-step unfolding of `parse_value` at an opening bracket (definitional). -/
theorem parse_value_bracket (f b : Nat) (r : List Char) :
    parse_value (f + 1) (b + 1) ('[' :: r)
      = (match skip_ws r with
         | [] => none
         | c :: r2 =>
           if c = ']' then some (.arr [], r2)
           else
             match parse_array_items f b (c :: r2) with
             | some (items, r3) => some (.arr items, r3)
             | none => none) := rfl

/-- One-step unfolding of `parse_value` at an opening brace (definitional). -/
theorem parse_value_brace (f b : Nat) (r : List Char) :
    parse_value (f + 1) (b + 1) ('\x7b' :: r)
      = (match skip_ws r with
         | [] => none
         | c :: r2 =>
           if c = '\x7d' then some (.obj [], r2)
           else
             match parse_object_members f b (c :: r2) with
             | some (members, r3) => some (.obj members, r3)
             | none => none) := rfl

/-- One-step unfolding of the array-items loop (definitional). -/
theorem parse_array_items_step (f b : Nat) (s : List Char) :
    parse_array_items (f + 1) b s
      = (match parse_value f b s with
         | some (j, r) =>
           match skip_ws r with
           | ',' :: r2 =>
             match parse_array_items f b (skip_ws r2) with
             | some (items, r3) => some (j :: items, r3)
             | none => none
           | ']' :: r2 => some ([j], r2)
           | _ => none
         | none => none) := rfl

/-- One-step unfolding of the object-members loop at a key quote
(definitional). -/
theorem parse_object_members_step (f b : Nat) (r : List Char) :
    parse_object_members (f + 1) b ('"' :: r)
      = (match parse_string_body r with
         | some (key, r1) =>
           match skip_ws r1 with
           | ':' :: r2 =>
             match parse_value f b (skip_ws r2) with
             | some (v, r3) =>
               match skip_ws r3 with
               | ',' :: r4 =>
                 match parse_object_members f b (skip_ws r4) with
                 | some (members, r5) => some ((key, v) :: members, r5)
                 | none => none
               | '\x7d' :: r4 => some ([(key, v)], r4)
               | _ => none
             | none => none
           | _ => none
         | none => none) := rfl

theorem print_items_rest_cons (j : Json) (js : List Json) :
    print_items_rest (j :: js) = ',' :: print_items (j :: js) := rfl

theorem print_members_rest_cons (k : List Char) (v : Json)
    (ms : List (List Char × Json)) :
    print_members_rest ((k, v) :: ms) = ',' :: print_members ((k, v) :: ms) := rfl

theorem print_items_rest_length_pos (es : List Json) : 0 < (print_items_rest es).length := by
  cases es with
  | nil => simp [print_items_rest]
  | cons j js => simp [print_items_rest_cons]

theorem print_members_rest_length_pos (ms : List (List Char × Json)) :
    0 < (print_members_rest ms).length := by
  cases ms with
  | nil => simp [print_members_rest]
  | cons kv rest => obtain ⟨k, v⟩ := kv; simp [print_members_rest_cons]

/-- Every printed num-free value starts with a character above 32 that is
neither a closing bracket nor a closing brace. -/
theorem print_head (j : Json) (h : num_free j = true) :
    ∃ c t, cjson_print_unformatted j = c :: t ∧ 32 < c.toNat ∧ c ≠ ']' ∧ c ≠ '\x7d' := by
  cases j with
  | num n => simp [num_free] at h
  | null => exact ⟨'n', _, rfl, by decide⟩
  | str s => exact ⟨'"', _, rfl, by decide⟩
  | arr items => exact ⟨'[', _, rfl, by decide⟩
  | obj members => exact ⟨'\x7b', _, rfl, by decide⟩
  | bool b =>
    cases b
    · exact ⟨'f', _, rfl, by decide⟩
    · exact ⟨'t', _, rfl, by decide⟩

theorem print_length_pos (j : Json) (h : num_free j = true) :
    0 < (cjson_print_unformatted j).length := by
  obtain ⟨c, t, he, -, -, -⟩ := print_head j h
  simp [he]

theorem skip_ws_colon (l : List Char) : skip_ws (':' :: l) = ':' :: l := rfl

theorem skip_ws_comma (l : List Char) : skip_ws (',' :: l) = ',' :: l := rfl

theorem skip_ws_quote (l : List Char) : skip_ws ('"' :: l) = '"' :: l := rfl

theorem skip_ws_rbrace (l : List Char) : skip_ws ('\x7d' :: l) = '\x7d' :: l := rfl

mutual

/-- Parsing a printed num-free value recovers it exactly and leaves the
remainder untouched, given fuel above the printed length and budget at
least the nesting depth. -/
theorem rt_value : ∀ (j : Json) (f bud : Nat) (rest : List Char),
    num_free j = true → json_depth j ≤ bud → (cjson_print_unformatted j).length < f →
    parse_value f bud (cjson_print_unformatted j ++ rest) = some (j, rest)
  | .null, f, bud, rest, _, _, hf => by
    cases f with
    | zero => exact absurd hf (by simp)
    | succ f2 => exact rfl
  | .bool b, f, bud, rest, _, _, hf => by
    cases f with
    | zero => exact absurd hf (by simp)
    | succ f2 => cases b <;> exact rfl
  | .num n, f, bud, rest, hnf, _, _ => by simp [num_free] at hnf
  | .str s, f, bud, rest, _, _, hf => by
    cases f with
    | zero => exact absurd hf (by simp)
    | succ f2 =>
      have harg : cjson_print_unformatted (.str s) ++ rest
          = '"' :: (escape_string s ++ '"' :: rest) := by
        simp [cjson_print_unformatted]
      have hstep : parse_value (f2 + 1) bud ('"' :: (escape_string s ++ '"' :: rest))
          = (match parse_string_body (escape_string s ++ '"' :: rest) with
             | some (s2, r2) => some (.str s2, r2)
             | none => none) := rfl
      rw [harg, hstep, parse_string_body_round]
  | .arr [], f, bud, rest, _, hd, hf => by
    cases f with
    | zero => exact absurd hf (by simp)
    | succ f2 =>
      cases bud with
      | zero => simp [json_depth] at hd
      | succ b2 => exact rfl
  | .arr (e :: es), f, bud, rest, hnf, hd, hf => by
    cases f with
    | zero => exact absurd hf (by simp)
    | succ f2 =>
      cases bud with
      | zero => simp [json_depth] at hd
      | succ b2 =>
        have hnf2 : num_free e = true ∧ num_free_list es = true := by
          simpa [num_free, num_free_list, Bool.and_eq_true] using hnf
        have hd2 : json_depth_list (e :: es) ≤ b2 := by
          simp only [json_depth] at hd; omega
        have hf2 : (print_items (e :: es)).length < f2 := by
          simp only [cjson_print_unformatted, List.length_cons] at hf; omega
        obtain ⟨c0, t0, hpr, hgt, hrb, -⟩ := print_head e hnf2.1
        have hitems : print_items (e :: es) ++ rest
            = c0 :: (t0 ++ (print_items_rest es ++ rest)) := by
          simp [print_items, hpr]
        have hsw : skip_ws (print_items (e :: es) ++ rest)
            = c0 :: (t0 ++ (print_items_rest es ++ rest)) := by
          rw [hitems]; exact skip_ws_head c0 _ hgt
        have key : parse_array_items f2 b2 (c0 :: (t0 ++ (print_items_rest es ++ rest)))
            = some (e :: es, rest) := by
          rw [← hitems]
          exact rt_items e es f2 b2 rest (by simpa [num_free_list, Bool.and_eq_true] using hnf2)
            hd2 hf2
        show parse_value (f2 + 1) (b2 + 1) ('[' :: (print_items (e :: es) ++ rest)) = _
        rw [parse_value_bracket, hsw]
        simp only [if_neg hrb, key]
  | .obj [], f, bud, rest, _, hd, hf => by
    cases f with
    | zero => exact absurd hf (by simp)
    | succ f2 =>
      cases bud with
      | zero => simp [json_depth] at hd
      | succ b2 => exact rfl
  | .obj ((k, v) :: ms), f, bud, rest, hnf, hd, hf => by
    cases f with
    | zero => exact absurd hf (by simp)
    | succ f2 =>
      cases bud with
      | zero => simp [json_depth] at hd
      | succ b2 =>
        have hnf2 : num_free v = true ∧ num_free_members ms = true := by
          simpa [num_free, num_free_members, Bool.and_eq_true] using hnf
        have hd2 : json_depth_members ((k, v) :: ms) ≤ b2 := by
          simp only [json_depth] at hd; omega
        have hf2 : (print_members ((k, v) :: ms)).length < f2 := by
          simp only [cjson_print_unformatted, List.length_cons] at hf; omega
        have key : parse_object_members f2 b2 (print_members ((k, v) :: ms) ++ rest)
            = some ((k, v) :: ms, rest) :=
          rt_members k v ms f2 b2 rest hnf hd2 hf2
        have hmem : print_members ((k, v) :: ms) ++ rest
            = '"' :: (escape_string k
                ++ '"' :: ':' :: (cjson_print_unformatted v ++ (print_members_rest ms ++ rest))) := by
          simp [print_members]
        have hsw : skip_ws (print_members ((k, v) :: ms) ++ rest)
            = print_members ((k, v) :: ms) ++ rest := by
          rw [hmem]; exact skip_ws_head '"' _ (by decide)
        show parse_value (f2 + 1) (b2 + 1)
            ('\x7b' :: (print_members ((k, v) :: ms) ++ rest)) = _
        rw [parse_value_brace, hsw, hmem]
        simp only [if_neg (by decide : ¬('"' : Char) = '\x7d')]
        rw [← hmem, key]
  termination_by j _ _ _ _ _ _ => sizeOf j
  decreasing_by
    all_goals simp_wf
    all_goals omega

/-- Parsing a printed non-empty run of array items recovers the items. -/
theorem rt_items : ∀ (e : Json) (es : List Json) (f bud : Nat) (rest : List Char),
    num_free_list (e :: es) = true → json_depth_list (e :: es) ≤ bud →
    (print_items (e :: es)).length < f →
    parse_array_items f bud (print_items (e :: es) ++ rest) = some (e :: es, rest)
  | e, [], f, bud, rest, hnf, hd, hf => by
    cases f with
    | zero => exact absurd hf (by simp [print_items])
    | succ f2 =>
      have hnfe : num_free e = true := by
        simp only [num_free_list, Bool.and_eq_true] at hnf
        exact hnf.1
      have hde : json_depth e ≤ bud := by
        simp only [json_depth_list, Nat.max_le] at hd
        exact hd.1
      have hfe : (cjson_print_unformatted e).length < f2 := by
        simp only [print_items, print_items_rest, List.length_append, List.length_cons] at hf
        omega
      have hX : print_items (e :: ([] : List Json)) ++ rest
          = cjson_print_unformatted e ++ (']' :: rest) := by
        simp [print_items, print_items_rest]
      rw [hX, parse_array_items_step, rt_value e f2 bud _ hnfe hde hfe]
      exact rfl
  | e, x :: xs, f, bud, rest, hnf, hd, hf => by
    cases f with
    | zero => exact absurd hf (by simp [print_items])
    | succ f2 =>
      have hnfe : num_free e = true := by
        simp only [num_free_list, Bool.and_eq_true] at hnf
        exact hnf.1
      have hnfxs : num_free_list (x :: xs) = true := by
        simp only [num_free_list, Bool.and_eq_true] at hnf ⊢
        exact hnf.2
      have hnfx : num_free x = true := by
        simp only [num_free_list, Bool.and_eq_true] at hnfxs
        exact hnfxs.1
      have hde : json_depth e ≤ bud := by
        simp only [json_depth_list, Nat.max_le] at hd
        exact hd.1
      have hdxs : json_depth_list (x :: xs) ≤ bud := by
        simp only [json_depth_list, Nat.max_le] at hd ⊢
        exact hd.2
      have hfe : (cjson_print_unformatted e).length < f2 := by
        have := print_items_rest_length_pos (x :: xs)
        simp only [print_items, List.length_append] at hf
        omega
      have hfx : (print_items (x :: xs)).length < f2 := by
        have := print_length_pos e hnfe
        simp only [print_items, print_items_rest_cons, List.length_append,
          List.length_cons] at hf ⊢
        omega
      have hX : print_items (e :: x :: xs) ++ rest
          = cjson_print_unformatted e ++ (print_items_rest (x :: xs) ++ rest) := by
        simp [print_items]
      rw [hX, parse_array_items_step, rt_value e f2 bud _ hnfe hde hfe]
      obtain ⟨c1, t1, hpx, hgt1, -, -⟩ := print_head x hnfx
      have key := rt_items x xs f2 bud rest hnfxs hdxs hfx
      have hY : print_items (x :: xs) ++ rest
          = c1 :: (t1 ++ (print_items_rest xs ++ rest)) := by
        simp [print_items, hpx]
      have hswx : skip_ws (print_items (x :: xs) ++ rest)
          = print_items (x :: xs) ++ rest := by
        rw [hY]; exact skip_ws_head c1 _ hgt1
      have hZ : print_items_rest (x :: xs) ++ rest
          = ',' :: (print_items (x :: xs) ++ rest) := by
        simp [print_items_rest_cons]
      show (match skip_ws (print_items_rest (x :: xs) ++ rest) with
            | ',' :: r2 =>
              match parse_array_items f2 bud (skip_ws r2) with
              | some (items, r3) => some (e :: items, r3)
              | none => none
            | ']' :: r2 => some ([e], r2)
            | _ => none) = some (e :: x :: xs, rest)
      rw [hZ, skip_ws_comma]
      simp only [hswx, key]
  termination_by e es _ _ _ _ _ _ => 1 + sizeOf e + sizeOf es
  decreasing_by
    all_goals simp_wf
    all_goals omega

/-- Parsing a printed non-empty run of object members recovers the
members. -/
theorem rt_members : ∀ (k : List Char) (v : Json) (ms : List (List Char × Json))
    (f bud : Nat) (rest : List Char),
    num_free (.obj ((k, v) :: ms)) = true → json_depth_members ((k, v) :: ms) ≤ bud →
    (print_members ((k, v) :: ms)).length < f →
    parse_object_members f bud (print_members ((k, v) :: ms) ++ rest)
      = some ((k, v) :: ms, rest)
  | k, v, [], f, bud, rest, hnf, hd, hf => by
    cases f with
    | zero => exact absurd hf (by simp [print_members])
    | succ f2 =>
      have hnfv : num_free v = true := by
        simp only [num_free, num_free_members, Bool.and_eq_true] at hnf
        exact hnf.1
      have hdv : json_depth v ≤ bud := by
        simp only [json_depth_members, Nat.max_le] at hd
        exact hd.1
      have hfv : (cjson_print_unformatted v).length < f2 := by
        simp only [print_members, print_members_rest, List.length_cons,
          List.length_append] at hf
        omega
      obtain ⟨c0, t0, hpv, hgt0, -, -⟩ := print_head v hnfv
      have hmem : print_members ((k, v) :: ([] : List (List Char × Json))) ++ rest
          = '"' :: (escape_string k
              ++ '"' :: ':' :: (cjson_print_unformatted v ++ ('\x7d' :: rest))) := by
        simp [print_members, print_members_rest]
      have hswv : skip_ws (cjson_print_unformatted v ++ ('\x7d' :: rest))
          = cjson_print_unformatted v ++ ('\x7d' :: rest) := by
        rw [hpv, List.cons_append]; exact skip_ws_head c0 _ hgt0
      have hval := rt_value v f2 bud ('\x7d' :: rest) hnfv hdv hfv
      rw [hmem, parse_object_members_step, parse_string_body_round]
      simp only [skip_ws_colon, hswv, hval, skip_ws_rbrace]
  | k, v, (k2, v2) :: ms2, f, bud, rest, hnf, hd, hf => by
    cases f with
    | zero => exact absurd hf (by simp [print_members])
    | succ f2 =>
      have hnfv : num_free v = true := by
        simp only [num_free, num_free_members, Bool.and_eq_true] at hnf
        exact hnf.1
      have hnfm : num_free (Json.obj ((k2, v2) :: ms2)) = true := by
        simp only [num_free, num_free_members, Bool.and_eq_true] at hnf ⊢
        exact hnf.2
      have hdv : json_depth v ≤ bud := by
        simp only [json_depth_members, Nat.max_le] at hd
        exact hd.1
      have hdm : json_depth_members ((k2, v2) :: ms2) ≤ bud := by
        simp only [json_depth_members, Nat.max_le] at hd ⊢
        exact hd.2
      have hfv : (cjson_print_unformatted v).length < f2 := by
        have := print_members_rest_length_pos ((k2, v2) :: ms2)
        simp only [print_members, List.length_cons, List.length_append] at hf
        omega
      have hfm : (print_members ((k2, v2) :: ms2)).length < f2 := by
        have := print_length_pos v hnfv
        simp only [print_members, print_members_rest_cons, List.length_append,
          List.length_cons] at hf ⊢
        omega
      obtain ⟨c0, t0, hpv, hgt0, -, -⟩ := print_head v hnfv
      have hmem : print_members ((k, v) :: (k2, v2) :: ms2) ++ rest
          = '"' :: (escape_string k ++ '"' :: ':' ::
              (cjson_print_unformatted v ++ (print_members_rest ((k2, v2) :: ms2) ++ rest))) := by
        simp [print_members]
      have hswv : skip_ws (cjson_print_unformatted v
            ++ (print_members_rest ((k2, v2) :: ms2) ++ rest))
          = cjson_print_unformatted v ++ (print_members_rest ((k2, v2) :: ms2) ++ rest) := by
        rw [hpv, List.cons_append]; exact skip_ws_head c0 _ hgt0
      have hval := rt_value v f2 bud (print_members_rest ((k2, v2) :: ms2) ++ rest)
        hnfv hdv hfv
      have key := rt_members k2 v2 ms2 f2 bud rest hnfm hdm hfm
      have hswm : skip_ws (print_members ((k2, v2) :: ms2) ++ rest)
          = print_members ((k2, v2) :: ms2) ++ rest := by
        have h2 : print_members ((k2, v2) :: ms2) ++ rest
            = '"' :: (escape_string k2 ++ '"' :: ':' ::
                (cjson_print_unformatted v2 ++ (print_members_rest ms2 ++ rest))) := by
          simp [print_members]
        rw [h2]; exact skip_ws_head '"' _ (by decide)
      have hZ : print_members_rest ((k2, v2) :: ms2) ++ rest
          = ',' :: (print_members ((k2, v2) :: ms2) ++ rest) := by
        simp [print_members_rest_cons]
      rw [hmem, parse_object_members_step, parse_string_body_round]
      simp only [skip_ws_colon]
      simp only [hswv, hval]
      show (match skip_ws (print_members_rest ((k2, v2) :: ms2) ++ rest) with
            | ',' :: r4 =>
              match parse_object_members f2 bud (skip_ws r4) with
              | some (members, r5) => some ((k, v) :: members, r5)
              | none => none
            | '\x7d' :: r4 => some ([(k, v)], r4)
            | _ => none) = some ((k, v) :: (k2, v2) :: ms2, rest)
      rw [hZ, skip_ws_comma]
      simp only [hswm, key]
  termination_by k v ms _ _ _ _ _ _ => 1 + sizeOf v + sizeOf ms
  decreasing_by
    all_goals simp_wf
    all_goals omega

end

/-- The payload printed by `construct_request_json` parses back to exactly
the payload value. -/
theorem cjson_parse_construct (config : api_config_t) (params : chat_request_params_t)
    (b : Bool) :
    cjson_parse (construct_request_json config params b)
      = some (request_payload config params b) := by
  have hnf : num_free (request_payload config params b) = true := by
    cases b <;> rfl
  have hd : json_depth (request_payload config params b) ≤ CJSON_NESTING_LIMIT := by
    have h3 : json_depth (request_payload config params b) = 3 := by cases b <;> rfl
    rw [h3]; decide
  have hsw : skip_ws (cjson_print_unformatted (request_payload config params b))
      = cjson_print_unformatted (request_payload config params b) := by
    obtain ⟨c, t, hpr, hgt, -, -⟩ := print_head _ hnf
    rw [hpr]; exact skip_ws_head c t hgt
  have hrt := rt_value (request_payload config params b)
    ((cjson_print_unformatted (request_payload config params b)).length + 1)
    CJSON_NESTING_LIMIT [] hnf hd (Nat.lt_succ_self _)
  rw [List.append_nil] at hrt
  simp [cjson_parse, construct_request_json, hsw, hrt]

/-!
Lemma layer, part two: the line discipline of the streaming decoder.
-/

theorem split_lines_no_newline (s : List Char) (h : '\n' ∉ s) : split_lines s = ([], s) := by
  induction s with
  | nil => rfl
  | cons c cs ih =>
    have hc : ¬(c = '\n') := fun he => h (he ▸ List.mem_cons_self _ _)
    have hcs : '\n' ∉ cs := fun hm => h (List.mem_cons_of_mem _ hm)
    simp [split_lines, hc, ih hcs]

theorem split_lines_rem_no_newline : ∀ s : List Char, '\n' ∉ (split_lines s).2
  | [] => by simp [split_lines]
  | c :: cs => by
    have ih := split_lines_rem_no_newline cs
    by_cases hc : c = '\n'
    · subst hc; simpa [split_lines] using ih
    · rcases hsp : split_lines cs with ⟨ls, r⟩
      rw [hsp] at ih
      cases ls with
      | nil =>
        simp only [split_lines, if_neg hc, hsp]
        intro hm
        rcases List.mem_cons.mp hm with h | h
        · exact hc h.symm
        · exact ih h
      | cons l ls2 =>
        simp only [split_lines, if_neg hc, hsp]
        exact ih

theorem split_lines_rem_length : ∀ s : List Char, (split_lines s).2.length ≤ s.length
  | [] => by simp [split_lines]
  | c :: cs => by
    have ih := split_lines_rem_length cs
    by_cases hc : c = '\n'
    · subst hc
      simp [split_lines]
      omega
    · rcases hsp : split_lines cs with ⟨ls, r⟩
      rw [hsp] at ih
      simp only at ih
      cases ls with
      | nil =>
        simp only [split_lines, if_neg hc, hsp, List.length_cons]
        omega
      | cons l ls2 =>
        simp only [split_lines, if_neg hc, hsp, List.length_cons]
        omega

theorem split_lines_lines_no_newline : ∀ s : List Char, ∀ l ∈ (split_lines s).1, '\n' ∉ l
  | [] => by simp [split_lines]
  | c :: cs => by
    have ih := split_lines_lines_no_newline cs
    by_cases hc : c = '\n'
    · subst hc
      simp only [split_lines, if_pos rfl]
      intro l hl
      rcases List.mem_cons.mp hl with h | h
      · subst h; simp
      · exact ih l h
    · rcases hsp : split_lines cs with ⟨ls, r⟩
      cases ls with
      | nil => simp [split_lines, hc, hsp]
      | cons l0 ls2 =>
        simp only [split_lines, if_neg hc, hsp]
        intro l hl
        rcases List.mem_cons.mp hl with h | h
        · subst h
          have h0 : '\n' ∉ l0 := ih l0 (by rw [hsp]; exact List.mem_cons_self _ _)
          intro hm
          rcases List.mem_cons.mp hm with h1 | h1
          · exact hc h1.symm
          · exact h0 h1
        · exact ih l (by rw [hsp]; exact List.mem_cons_of_mem _ h)

theorem split_lines_append (a b : List Char) :
    split_lines (a ++ b)
      = ((split_lines a).1 ++ (split_lines ((split_lines a).2 ++ b)).1,
         (split_lines ((split_lines a).2 ++ b)).2) := by
  induction a with
  | nil => simp [split_lines]
  | cons c cs ih =>
    by_cases hc : c = '\n'
    · subst hc
      simp [split_lines, ih]
    · rcases hsp : split_lines cs with ⟨ls, r⟩
      cases ls with
      | nil =>
        rcases hX : split_lines (r ++ b) with ⟨xs, y⟩
        cases xs with
        | nil => simp [split_lines, hc, ih, hsp, hX]
        | cons x xs2 => simp [split_lines, hc, ih, hsp, hX]
      | cons l ls2 =>
        simp [split_lines, hc, ih, hsp]

theorem split_lines_line (l : List Char) (hl : '\n' ∉ l) (t : List Char) :
    split_lines (l ++ '\n' :: t) = (l :: (split_lines t).1, (split_lines t).2) := by
  induction l with
  | nil => simp [split_lines]
  | cons c cs ih =>
    have hc : ¬(c = '\n') := fun he => hl (he ▸ List.mem_cons_self _ _)
    have hcs : '\n' ∉ cs := fun hm => hl (List.mem_cons_of_mem _ hm)
    simp [split_lines, hc, ih hcs]

theorem split_lines_join_lines (ls : List (List Char)) (h : ∀ l ∈ ls, '\n' ∉ l)
    (t : List Char) :
    split_lines (join_lines ls ++ t) = (ls ++ (split_lines t).1, (split_lines t).2) := by
  induction ls with
  | nil => simp [join_lines]
  | cons l ls2 ih =>
    have hl : '\n' ∉ l := h l (List.mem_cons_self _ _)
    have hrest : ∀ x ∈ ls2, '\n' ∉ x := fun x hx => h x (List.mem_cons_of_mem _ hx)
    have harg : join_lines (l :: ls2) ++ t = l ++ '\n' :: (join_lines ls2 ++ t) := by
      simp [join_lines]
    rw [harg, split_lines_line l hl, ih hrest]
    rfl

/-- A byte stream is its complete-lines prefix followed by its retained
tail. -/
theorem split_lines_reconstruct : ∀ s : List Char,
    join_lines (split_lines s).1 ++ (split_lines s).2 = s
  | [] => by simp [split_lines, join_lines]
  | c :: cs => by
    have ih := split_lines_reconstruct cs
    by_cases hc : c = '\n'
    · subst hc
      simp only [split_lines, if_pos rfl, join_lines]
      simpa using ih
    · rcases hsp : split_lines cs with ⟨ls, r⟩
      rw [hsp] at ih
      simp only at ih
      cases ls with
      | nil =>
        simp only [split_lines, if_neg hc, hsp, join_lines]
        simpa using ih
      | cons l ls2 =>
        simp only [split_lines, if_neg hc, hsp, join_lines] at ih ⊢
        simpa using ih

theorem split_lines_up_to_last_newline (s : List Char) :
    split_lines (up_to_last_newline s) = ((split_lines s).1, []) := by
  have h := split_lines_join_lines (split_lines s).1 (split_lines_lines_no_newline s) []
  simpa [up_to_last_newline, split_lines] using h

theorem lines_output_append (a b : List (List Char)) :
    lines_output (a ++ b) = lines_output a ++ lines_output b := by
  induction a with
  | nil => simp [lines_output]
  | cons l ls ih => simp [lines_output, ih]

/-- Master invariant of the streaming decoder: starting from a
newline-free buffer with room to spare, a successful run of callbacks
prints exactly the output of the complete lines of everything received,
and retains exactly the newline-free tail after the last newline, which
still fits the buffer. -/
theorem feed_chunks_spec : ∀ (chunks : List (List Char)) (buffer : List Char),
    '\n' ∉ buffer → buffer.length < STREAM_BUFFER_SIZE →
    ∀ bufF out, feed_chunks buffer chunks = some (bufF, out) →
    out = lines_output (split_lines (buffer ++ chunks.flatten)).1 ∧
    bufF = (split_lines (buffer ++ chunks.flatten)).2 ∧
    '\n' ∉ bufF ∧ bufF.length < STREAM_BUFFER_SIZE
  | [], buffer, hnb, hlen, bufF, out, hfeed => by
    simp only [feed_chunks, Option.some.injEq, Prod.mk.injEq] at hfeed
    obtain ⟨hb, ho⟩ := hfeed
    subst hb; subst ho
    rw [List.flatten_nil, List.append_nil, split_lines_no_newline buffer hnb]
    exact ⟨rfl, rfl, hnb, hlen⟩
  | chunk :: rest, buffer, hnb, hlen, bufF, out, hfeed => by
    simp only [feed_chunks, stream_data_callback] at hfeed
    by_cases hov : STREAM_BUFFER_SIZE ≤ buffer.length + chunk.length
    · rw [if_pos hov] at hfeed; simp at hfeed
    · rw [if_neg hov] at hfeed
      simp only [process_stream_data] at hfeed
      rcases hrec : feed_chunks (split_lines (buffer ++ chunk)).2 rest with _ | ⟨b3, o2⟩
      · rw [hrec] at hfeed; simp at hfeed
      · rw [hrec] at hfeed
        simp only [Option.some.injEq, Prod.mk.injEq] at hfeed
        obtain ⟨hb, ho⟩ := hfeed
        have hr1 : '\n' ∉ (split_lines (buffer ++ chunk)).2 :=
          split_lines_rem_no_newline _
        have hr2 : (split_lines (buffer ++ chunk)).2.length < STREAM_BUFFER_SIZE := by
          have := split_lines_rem_length (buffer ++ chunk)
          simp only [List.length_append] at this
          omega
        obtain ⟨ho2, hb3, hnb3, hlen3⟩ := feed_chunks_spec rest _ hr1 hr2 b3 o2 hrec
        have happ := split_lines_append (buffer ++ chunk) rest.flatten
        have htot : buffer ++ (chunk :: rest).flatten = (buffer ++ chunk) ++ rest.flatten := by
          simp [List.flatten_cons]
        refine ⟨?_, ?_, ?_, ?_⟩
        · rw [← ho, ho2, htot, happ]
          simp [lines_output_append]
        · rw [← hb, hb3, htot, happ]
        · rw [← hb]; exact hnb3
        · rw [← hb]; exact hlen3

/-!
The claims.
-/

/-- Claim C1, counterexample.  The claim states that with configuration
`api_key "k"`, `base_url "https://example/api"`, `model_name "m"`,
`system_prompt "sys"`, query `"hi"` and only the dry-run flag set, the
program prints exactly
`\x7b"model":"m","messages":[...],"stream":false\x7d` and a newline and
exits 0.  On the code this is false: `main` computes
`stream_enabled = !store_forward`, so with only `--dry-run` set the printed
payload ends in `"stream":true`. -/
theorem claim_c1_counterexample :
    main_after_config
        ⟨("k".toList), ("https://example/api".toList), ("m".toList), ("sys".toList)⟩
        ("hi".toList) ⟨false, false, true, false⟩
      ≠ .exited (("\x7b\"model\":\"m\",\"messages\":[\x7b\"role\":\"system\",\"content\":\"sys\"\x7d,\x7b\"role\":\"user\",\"content\":\"hi\"\x7d],\"stream\":false\x7d\n".toList)) 0 := by
  decide

/-- Claim C1, amended: with that configuration, query `"hi"` and only the
dry-run flag set, the program prints to stdout exactly
`\x7b"model":"m","messages":[\x7b"role":"system","content":"sys"\x7d,\x7b"role":"user","content":"hi"\x7d],"stream":true\x7d`
followed by a newline, exits with status 0, and dispatches no network
request (the `.exited` outcome is returned before either transport path is
reached). -/
theorem claim_c1_amended :
    main_after_config
        ⟨("k".toList), ("https://example/api".toList), ("m".toList), ("sys".toList)⟩
        ("hi".toList) ⟨false, false, true, false⟩
      = .exited (("\x7b\"model\":\"m\",\"messages\":[\x7b\"role\":\"system\",\"content\":\"sys\"\x7d,\x7b\"role\":\"user\",\"content\":\"hi\"\x7d],\"stream\":true\x7d\n".toList)) 0 := by
  decide

/-- Claim C2: for every configuration with non-empty model name and every
request-params value with non-empty user query, the payload produced by
`construct_request_json` deserializes to an object whose `messages` array
has exactly two entries — first role `system` with the custom prompt when
present and the configured system prompt otherwise, second role `user`
with the user query — and whose `stream` field equals the boolean the
caller passed; and `main` passes `!store_forward` and dispatches to the
streaming path exactly when that boolean is true. -/
theorem claim_c2_payload_roundtrip (config : api_config_t)
    (params : chat_request_params_t) (b : Bool)
    (_hm : config.model_name ≠ []) (_hq : params.user_query ≠ []) :
    (cjson_parse (construct_request_json config params b)
      = some (.obj [(("model".toList), .str config.model_name),
                    (("messages".toList), .arr
                      [.obj [(("role".toList), .str ("system".toList)),
                             (("content".toList),
                              .str (params.custom_prompt.getD config.system_prompt))],
                       .obj [(("role".toList), .str ("user".toList)),
                             (("content".toList), .str params.user_query)]]),
                    (("stream".toList), .bool b)]))
    ∧ (∀ show_tokens echo_input store_forward : Bool,
        main_after_config config params.user_query
            ⟨show_tokens, echo_input, false, store_forward⟩
          = .dispatched (if store_forward then .buffered else .streaming)
              (construct_request_json config ⟨params.user_query, none⟩ (!store_forward))
              (if echo_input
               then ("\nInput: ".toList) ++ params.user_query ++ ['\n'] else [])) := by
  constructor
  · exact cjson_parse_construct config params b
  · intro show_tokens echo_input store_forward
    cases store_forward <;> rfl

/-- Claim C2, witness at the C1 scenario's configuration with the
streaming flag. -/
theorem claim_c2_witness :
    cjson_parse (construct_request_json
        ⟨("k".toList), ("https://example/api".toList), ("m".toList), ("sys".toList)⟩
        ⟨("hi".toList), none⟩ true)
      = some (.obj [(("model".toList), .str ("m".toList)),
                    (("messages".toList), .arr
                      [.obj [(("role".toList), .str ("system".toList)),
                             (("content".toList), .str ("sys".toList))],
                       .obj [(("role".toList), .str ("user".toList)),
                             (("content".toList), .str ("hi".toList))]]),
                    (("stream".toList), .bool true)]) :=
  (claim_c2_payload_roundtrip _ _ true (by decide) (by decide)).1

/-- Claim C3, counterexample.  The claim states the transport behavior
(headers, timeout, response capture) is identical for the buffered and the
streaming caller.  On the code this is false: `perform_http_post` sets
`CURLOPT_TIMEOUT` to 30 seconds, while `execute_streaming_request` never
sets a timeout on its handle. -/
theorem claim_c3_counterexample :
    (execute_chat_request_curl
        ⟨("k".toList), ("https://example/api".toList), ("m".toList), ("sys".toList)⟩
        ("body".toList)).timeout_seconds
      ≠ (execute_streaming_request_curl
        ⟨("k".toList), ("https://example/api".toList), ("m".toList), ("sys".toList)⟩
        ("body".toList)).timeout_seconds := by
  decide

/-- Claim C3, amended: the buffered caller's HTTP POST applies the fixed
30-second request timeout (and a user agent); the streaming caller sets
the same Content-Type and Authorization headers, the same URL and the same
body, but applies no request timeout and no user agent, and the two
differ in their write-sink behavior. -/
theorem claim_c3_amended (config : api_config_t) (request_json : List Char) :
    (execute_chat_request_curl config request_json).timeout_seconds = some 30 ∧
    (execute_streaming_request_curl config request_json).timeout_seconds = none ∧
    (execute_chat_request_curl config request_json).user_agent
      = some ("deepseek-cli/1.0".toList) ∧
    (execute_streaming_request_curl config request_json).user_agent = none ∧
    (execute_chat_request_curl config request_json).headers
      = (execute_streaming_request_curl config request_json).headers ∧
    (execute_chat_request_curl config request_json).url
      = (execute_streaming_request_curl config request_json).url ∧
    (execute_chat_request_curl config request_json).post_body
      = (execute_streaming_request_curl config request_json).post_body :=
  ⟨rfl, rfl, rfl, rfl, rfl, rfl, rfl⟩

/-- Claim C4, counterexample.  The claim states the callback fails if and
only if `len(B) + len(C)` would exceed the 4096-byte capacity.  On the
code this is false at the boundary: the check is
`buffer_len + data_size >= sizeof(buffer)`, so an empty buffer plus a
chunk of exactly 4096 bytes is rejected although 4096 does not exceed
4096. -/
theorem claim_c4_counterexample :
    stream_data_callback [] (List.replicate 4096 'a') = none ∧
    ¬ (4096 < ([] : List Char).length + (List.replicate 4096 'a').length) := by
  obtain ⟨c, hc⟩ : ∃ c, c = List.replicate 4096 'a' := ⟨_, rfl⟩
  rw [← hc]
  have hlen : c.length = 4096 := by rw [hc, List.length_replicate]
  constructor
  · unfold stream_data_callback
    rw [hlen]
    norm_num [STREAM_BUFFER_SIZE]
  · rw [hlen]
    norm_num

/-- Claim C4, amended: the callback fails with the stream-buffer-overflow
abort if and only if `len(B) + len(C) ≥ 4096` (the check reserves one byte
of the 4096-byte buffer for the NUL terminator, so the usable capacity is
4095); the check runs before any byte is copied, so a failing chunk is
never partially appended and the request is aborted (the callback returns
0 to libcurl, modelled by `none`); in particular a single chunk larger
than the buffer arriving before any newline always fails. -/
theorem claim_c4_amended (buffer chunk : List Char) :
    (stream_data_callback buffer chunk = none ↔
      4096 ≤ buffer.length + chunk.length) ∧
    (4096 < chunk.length → stream_data_callback buffer chunk = none) := by
  have hiff : stream_data_callback buffer chunk = none ↔
      4096 ≤ buffer.length + chunk.length := by
    by_cases h : STREAM_BUFFER_SIZE ≤ buffer.length + chunk.length
    · simp only [stream_data_callback, if_pos h]
      exact ⟨fun _ => h, fun _ => by trivial⟩
    · simp only [stream_data_callback, if_neg h]
      constructor
      · intro hc; exact absurd hc (by simp)
      · intro hc; exact absurd hc h
  exact ⟨hiff, fun h => hiff.mpr (by omega)⟩

/-- Claim C4, witness of the amended statement at an empty buffer and a
4097-byte chunk. -/
theorem claim_c4_witness :
    (stream_data_callback [] (List.replicate 4097 'b') = none ↔
      4096 ≤ ([] : List Char).length + (List.replicate 4097 'b').length) ∧
    (4096 < (List.replicate 4097 'b').length →
      stream_data_callback [] (List.replicate 4097 'b') = none) :=
  claim_c4_amended [] (List.replicate 4097 'b')

/-- Claim C5: feeding the decoder the two chunks
`data: \x7b"choices":[\x7b"delta":\x7b"content":"Hel` and `lo"\x7d\x7d]\x7d\n` emits
exactly `Hello` exactly once, and nothing at all after the first chunk
alone; in general a successful run prints exactly the per-line output (the
`data: ` strip, `cJSON_Parse`, `choices[0].delta.content` chain of
`emit_of_line`) of the complete lines of the concatenated stream, in
arrival order, independent of how the stream was cut into chunks. -/
theorem claim_c5_stream_reassembly :
    (stream_data_callback []
        (("data: \x7b\"choices\":[\x7b\"delta\":\x7b\"content\":\"Hel".toList))
      = some ((("data: \x7b\"choices\":[\x7b\"delta\":\x7b\"content\":\"Hel".toList)), []) ∧
     feed_chunks [] [(("data: \x7b\"choices\":[\x7b\"delta\":\x7b\"content\":\"Hel".toList)),
                     (("lo\"\x7d\x7d]\x7d\n".toList))]
      = some ([], ("Hello".toList))) ∧
    (∀ (chunks : List (List Char)) (bufF out : List Char),
      feed_chunks [] chunks = some (bufF, out) →
      out = lines_output (split_lines chunks.flatten).1) := by
  refine ⟨⟨rfl, rfl⟩, ?_⟩
  intro chunks bufF out h
  obtain ⟨ho, -, -, -⟩ := feed_chunks_spec chunks [] (by simp) (by decide) bufF out h
  simpa using ho

/-- Claim C5, witness: the two-chunk scenario agrees with the general
line-reassembly characterization. -/
theorem claim_c5_witness :
    feed_chunks [] [(("data: \x7b\"choices\":[\x7b\"delta\":\x7b\"content\":\"Hel".toList)),
                    (("lo\"\x7d\x7d]\x7d\n".toList))]
      = some ([], ("Hello".toList)) ∧
    ("Hello".toList) = lines_output (split_lines
      ([(("data: \x7b\"choices\":[\x7b\"delta\":\x7b\"content\":\"Hel".toList)),
        (("lo\"\x7d\x7d]\x7d\n".toList))] : List (List Char)).flatten).1 :=
  ⟨claim_c5_stream_reassembly.1.2,
   claim_c5_stream_reassembly.2
     [(("data: \x7b\"choices\":[\x7b\"delta\":\x7b\"content\":\"Hel".toList)),
      (("lo\"\x7d\x7d]\x7d\n".toList))] [] ("Hello".toList) rfl⟩

/-- Claim C6: when the buffered response body decodes to a JSON value with
an `error` member, `parse_chat_response` fails with the remote-API error
carrying exactly the nested `message` string (the generic `Unknown error`
placeholder when that member is absent or not a string), and never reaches
the `choices` handling: the result is an api_error however `choices`
looks. -/
theorem claim_c6_error_envelope (body : List Char) (root err : Json)
    (hparse : cjson_parse body = some root)
    (herr : get_object_item root ("error".toList) = some err) :
    (∃ msg, parse_chat_response (some body) = .error (.api_error msg)) ∧
    (∀ s, get_object_item err ("message".toList) = some (.str s) →
      parse_chat_response (some body) = .error (.api_error s)) ∧
    ((∀ s, get_object_item err ("message".toList) ≠ some (.str s)) →
      parse_chat_response (some body) = .error (.api_error ("Unknown error".toList))) := by
  have hbase : parse_chat_response (some body)
      = .error (.api_error (match get_object_item err ("message".toList) with
                            | some (.str s) => s
                            | _ => ("Unknown error".toList))) := by
    simp only [parse_chat_response, hparse, herr]
  refine ⟨⟨_, hbase⟩, ?_, ?_⟩
  · intro s hs
    rw [hbase, hs]
  · intro hns
    rcases hm : get_object_item err ("message".toList) with _ | j
    · rw [hbase, hm]
    · cases j with
      | str s => exact absurd hm (hns s)
      | null => rw [hbase, hm]
      | bool b => rw [hbase, hm]
      | num n => rw [hbase, hm]
      | arr a => rw [hbase, hm]
      | obj o => rw [hbase, hm]

/-- Claim C6, witness at the body
`\x7b"error":\x7b"message":"invalid_api_key"\x7d\x7d`. -/
theorem claim_c6_witness :
    parse_chat_response (some ("\x7b\"error\":\x7b\"message\":\"invalid_api_key\"\x7d\x7d".toList))
      = .error (.api_error ("invalid_api_key".toList)) :=
  (claim_c6_error_envelope
    ("\x7b\"error\":\x7b\"message\":\"invalid_api_key\"\x7d\x7d".toList)
    (.obj [(("error".toList), .obj [(("message".toList), .str ("invalid_api_key".toList))])])
    (.obj [(("message".toList), .str ("invalid_api_key".toList))])
    rfl rfl).2.1 ("invalid_api_key".toList) rfl

/-- Claim C7, counterexample to the original statement: a response whose
`usage.prompt_tokens` is `5000000000` does not yield a token count equal to
that value — cJSON saturates `valueint` to `INT_MAX`, so `parse_chat_response`
reports `2147483647`. -/
theorem claim_c7_counterexample :
    parse_chat_response (some ("\x7b\"choices\":[\x7b\"message\":\x7b\"content\":\"ok\"\x7d\x7d],\"usage\":\x7b\"prompt_tokens\":5000000000\x7d\x7d".toList))
      = .ok ⟨("ok".toList), 2147483647, 0, 0⟩ ∧
    ((2147483647 : Int) = 5000000000 → False) :=
  ⟨rfl, by decide⟩

/-- Claim C7, amended: for a well-formed buffered response (parses, no
`error` member, `choices[0].message.content` a string),
`parse_chat_response` succeeds with that content, and the three token
counters come from `usage.prompt_tokens`, `usage.completion_tokens` and
`usage.total_tokens` respectively, each saturated to the C `int` range
(`INT_MAX` when at least `INT_MAX`, `INT_MIN` when at most `INT_MIN`, the
value itself otherwise — so equal to the usage value whenever it lies in
range), each individually missing field read as `0` (a partial `usage`
object is not an error), and all three `0` when `usage` is absent
entirely. -/
theorem claim_c7_amended (body : List Char) (root first_choice : Json)
    (rest : List Json) (s : List Char)
    (hparse : cjson_parse body = some root)
    (herr : get_object_item root ("error".toList) = none)
    (hch : get_object_item root ("choices".toList) = some (.arr (first_choice :: rest)))
    (hct : (get_object_item first_choice ("message".toList)).bind
        (fun m => get_object_item m ("content".toList)) = some (.str s)) :
    (get_object_item root ("usage".toList) = none →
      parse_chat_response (some body) = .ok ⟨s, 0, 0, 0⟩) ∧
    (∀ usage, get_object_item root ("usage".toList) = some usage →
      ∃ r, parse_chat_response (some body) = .ok r ∧ r.content = s ∧
        (∀ n, get_object_item usage ("prompt_tokens".toList) = some (.num n) →
          r.input_token_count
            = if INT_MAX ≤ n then INT_MAX else if n ≤ INT_MIN then INT_MIN else n) ∧
        (get_object_item usage ("prompt_tokens".toList) = none →
          r.input_token_count = 0) ∧
        (∀ n, get_object_item usage ("completion_tokens".toList) = some (.num n) →
          r.output_token_count
            = if INT_MAX ≤ n then INT_MAX else if n ≤ INT_MIN then INT_MIN else n) ∧
        (get_object_item usage ("completion_tokens".toList) = none →
          r.output_token_count = 0) ∧
        (∀ n, get_object_item usage ("total_tokens".toList) = some (.num n) →
          r.total_token_count
            = if INT_MAX ≤ n then INT_MAX else if n ≤ INT_MIN then INT_MIN else n) ∧
        (get_object_item usage ("total_tokens".toList) = none →
          r.total_token_count = 0)) := by
  have hbase : parse_chat_response (some body)
      = (match get_object_item root ("usage".toList) with
         | some usage =>
           .ok ⟨s, cjson_valueint (get_object_item usage ("prompt_tokens".toList)),
                cjson_valueint (get_object_item usage ("completion_tokens".toList)),
                cjson_valueint (get_object_item usage ("total_tokens".toList))⟩
         | none => .ok ⟨s, 0, 0, 0⟩) := by
    simp only [parse_chat_response, hparse, herr, hch, hct]
  constructor
  · intro hu
    rw [hbase, hu]
  · intro usage hu
    refine ⟨⟨s, cjson_valueint (get_object_item usage ("prompt_tokens".toList)),
            cjson_valueint (get_object_item usage ("completion_tokens".toList)),
            cjson_valueint (get_object_item usage ("total_tokens".toList))⟩,
           ?_, rfl, ?_, ?_, ?_, ?_, ?_, ?_⟩
    · rw [hbase, hu]
    · intro n hn; rw [hn]; rfl
    · intro hn; rw [hn]; rfl
    · intro n hn; rw [hn]; rfl
    · intro hn; rw [hn]; rfl
    · intro n hn; rw [hn]; rfl
    · intro hn; rw [hn]; rfl

/-- Claim C7, witness at a response with a partial usage object (only
`prompt_tokens` and `total_tokens` present). -/
theorem claim_c7_witness :
    ∃ r, parse_chat_response (some ("\x7b\"choices\":[\x7b\"message\":\x7b\"content\":\"ok\"\x7d\x7d],\"usage\":\x7b\"prompt_tokens\":10,\"total_tokens\":15\x7d\x7d".toList))
        = .ok r ∧ r.content = ("ok".toList) ∧
      (∀ n, get_object_item
          (.obj [(("prompt_tokens".toList), .num 10), (("total_tokens".toList), .num 15)])
          ("prompt_tokens".toList) = some (.num n) →
        r.input_token_count
          = if INT_MAX ≤ n then INT_MAX else if n ≤ INT_MIN then INT_MIN else n) ∧
      (get_object_item
          (.obj [(("prompt_tokens".toList), .num 10), (("total_tokens".toList), .num 15)])
          ("prompt_tokens".toList) = none → r.input_token_count = 0) ∧
      (∀ n, get_object_item
          (.obj [(("prompt_tokens".toList), .num 10), (("total_tokens".toList), .num 15)])
          ("completion_tokens".toList) = some (.num n) →
        r.output_token_count
          = if INT_MAX ≤ n then INT_MAX else if n ≤ INT_MIN then INT_MIN else n) ∧
      (get_object_item
          (.obj [(("prompt_tokens".toList), .num 10), (("total_tokens".toList), .num 15)])
          ("completion_tokens".toList) = none → r.output_token_count = 0) ∧
      (∀ n, get_object_item
          (.obj [(("prompt_tokens".toList), .num 10), (("total_tokens".toList), .num 15)])
          ("total_tokens".toList) = some (.num n) →
        r.total_token_count
          = if INT_MAX ≤ n then INT_MAX else if n ≤ INT_MIN then INT_MIN else n) ∧
      (get_object_item
          (.obj [(("prompt_tokens".toList), .num 10), (("total_tokens".toList), .num 15)])
          ("total_tokens".toList) = none → r.total_token_count = 0) :=
  (claim_c7_amended
    ("\x7b\"choices\":[\x7b\"message\":\x7b\"content\":\"ok\"\x7d\x7d],\"usage\":\x7b\"prompt_tokens\":10,\"total_tokens\":15\x7d\x7d".toList)
    (.obj [(("choices".toList),
            .arr [.obj [(("message".toList), .obj [(("content".toList), .str ("ok".toList))])]]),
           (("usage".toList),
            .obj [(("prompt_tokens".toList), .num 10), (("total_tokens".toList), .num 15)])])
    (.obj [(("message".toList), .obj [(("content".toList), .str ("ok".toList))])])
    [] ("ok".toList) rfl rfl rfl rfl).2
    (.obj [(("prompt_tokens".toList), .num 10), (("total_tokens".toList), .num 15)]) rfl

/-- Claim C8: a complete line that (after the optional `data: ` strip)
fails to decode as JSON — a blank line, a `: keep-alive` line — makes the
decoder emit nothing and raise no error, and a decoded event without a
`choices[0].delta.content` string also emits nothing; in either case the
remaining lines are processed as if the line were not there. -/
theorem claim_c8_skip_lines :
    (stream_data_callback [] (['\n']) = some ([], []) ∧
     stream_data_callback [] ((": keep-alive\n".toList)) = some ([], [])) ∧
    (∀ line : List Char,
      cjson_parse (if line.take 6 = ("data: ".toList) then line.drop 6 else line) = none →
      emit_of_line line = []) ∧
    (∀ (line : List Char) (root : Json),
      cjson_parse (if line.take 6 = ("data: ".toList) then line.drop 6 else line)
        = some root →
      (¬ ∃ (first_choice : Json) (rest : List Json) (delta : Json) (s : List Char),
        get_object_item root ("choices".toList) = some (.arr (first_choice :: rest)) ∧
        get_object_item first_choice ("delta".toList) = some delta ∧
        get_object_item delta ("content".toList) = some (.str s)) →
      emit_of_line line = []) ∧
    (∀ (line : List Char) (more : List (List Char)),
      emit_of_line line = [] → lines_output (line :: more) = lines_output more) := by
  refine ⟨⟨rfl, rfl⟩, ?_, ?_, ?_⟩
  · intro line h
    simp only [emit_of_line, h]
  · intro line root h hne
    simp only [emit_of_line, h]
    rcases hch : get_object_item root ("choices".toList) with _ | j
    · simp only [hch]
    · cases j with
      | arr items =>
        cases items with
        | nil => simp only [hch]
        | cons fc rest =>
          rcases hdelta : get_object_item fc ("delta".toList) with _ | delta
          · simp only [hch, hdelta]
          · rcases hcont : get_object_item delta ("content".toList) with _ | jc
            · simp only [hch, hdelta, hcont]
            · cases jc with
              | str s => exact absurd ⟨fc, rest, delta, s, hch, hdelta, hcont⟩ hne
              | null => simp only [hch, hdelta, hcont]
              | bool b => simp only [hch, hdelta, hcont]
              | num n => simp only [hch, hdelta, hcont]
              | arr a => simp only [hch, hdelta, hcont]
              | obj o => simp only [hch, hdelta, hcont]
      | null => simp only [hch]
      | bool b => simp only [hch]
      | num n => simp only [hch]
      | str s2 => simp only [hch]
      | obj o => simp only [hch]
  · intro line more h
    simp [lines_output, h]

/-- Claim C8, witness: the `: keep-alive` line is skipped silently and
does not disturb later lines. -/
theorem claim_c8_witness :
    emit_of_line ((": keep-alive".toList)) = [] ∧
    stream_data_callback [] (['\n']) = some ([], []) ∧
    lines_output [(": keep-alive".toList), ("x".toList)]
      = lines_output [("x".toList)] :=
  ⟨claim_c8_skip_lines.2.1 (": keep-alive".toList) rfl,
   claim_c8_skip_lines.1.1,
   claim_c8_skip_lines.2.2.2 (": keep-alive".toList) [("x".toList)]
     (claim_c8_skip_lines.2.1 (": keep-alive".toList) rfl)⟩

/-- Claim C9: over any finite chunk sequence, the decoder's total output
is a function of the prefix of the concatenated stream up to and
including its last newline alone; the retained unterminated tail (the
whole stream when it has no newline) is exactly what follows that prefix
and contributes nothing to the output. -/
theorem claim_c9_unterminated_tail (chunks : List (List Char)) (bufF out : List Char)
    (h : feed_chunks [] chunks = some (bufF, out)) :
    out = lines_output (split_lines (up_to_last_newline chunks.flatten)).1 ∧
    chunks.flatten = up_to_last_newline chunks.flatten ++ bufF ∧
    '\n' ∉ bufF := by
  obtain ⟨ho, hb, hnb, -⟩ := feed_chunks_spec chunks [] (by simp) (by decide) bufF out h
  rw [List.nil_append] at ho hb
  refine ⟨?_, ?_, ?_⟩
  · rw [ho, split_lines_up_to_last_newline]
  · rw [hb]
    exact (split_lines_reconstruct chunks.flatten).symm
  · rw [hb]
    exact split_lines_rem_no_newline _

/-- Claim C9, witness at the single chunk `ab\ncd`: the `cd` tail is
retained, not emitted. -/
theorem claim_c9_witness :
    ([] : List Char)
      = lines_output (split_lines
          (up_to_last_newline ([("ab\ncd".toList)] : List (List Char)).flatten)).1 ∧
    ([("ab\ncd".toList)] : List (List Char)).flatten
      = up_to_last_newline ([("ab\ncd".toList)] : List (List Char)).flatten
          ++ ("cd".toList) ∧
    '\n' ∉ ("cd".toList) :=
  claim_c9_unterminated_tail [("ab\ncd".toList)] ("cd".toList) [] rfl

/-- Claim C10: after any successful run of callbacks from the initial
state, the retained buffer is exactly the suffix of all received bytes
after the last newline, it contains no newline, its length is strictly
below the 4096-byte capacity, and the emitted output is exactly the
concatenation of what the consumed complete lines print. -/
theorem claim_c10_invariant (chunks : List (List Char)) (bufF out : List Char)
    (h : feed_chunks [] chunks = some (bufF, out)) :
    bufF = (split_lines chunks.flatten).2 ∧
    chunks.flatten = join_lines (split_lines chunks.flatten).1 ++ bufF ∧
    '\n' ∉ bufF ∧
    bufF.length < 4096 ∧
    out = lines_output (split_lines chunks.flatten).1 := by
  obtain ⟨ho, hb, hnb, hlen⟩ := feed_chunks_spec chunks [] (by simp) (by decide) bufF out h
  rw [List.nil_append] at ho hb
  refine ⟨hb, ?_, hnb, hlen, ho⟩
  rw [hb]
  exact (split_lines_reconstruct chunks.flatten).symm

/-- Claim C10, witness at the single chunk `x` (no newline): the whole
chunk is retained and nothing is emitted. -/
theorem claim_c10_witness :
    ("x".toList) = (split_lines ([("x".toList)] : List (List Char)).flatten).2 ∧
    ([("x".toList)] : List (List Char)).flatten
      = join_lines (split_lines ([("x".toList)] : List (List Char)).flatten).1
          ++ ("x".toList) ∧
    '\n' ∉ ("x".toList) ∧
    ("x".toList).length < 4096 ∧
    ([] : List Char) = lines_output (split_lines ([("x".toList)] : List (List Char)).flatten).1 :=
  claim_c10_invariant [("x".toList)] ("x".toList) [] rfl
